import Mathlib

/-!
Verification development for a FreeRTOS-style scheduler core and its example
programs (task creation/deletion, priorities, suspension, periodic delays,
bounded producer/consumer queues).

The example programs (hello_task, app_main wiring) are embedded directly from
the C sources.  The scheduler core itself (task selection, delay primitives,
bounded queue) is not part of the repository sources: those parts are modelled
from the specification, and each such definition is marked
`Modelled from the spec:` in its doc comment.
-/

namespace RtosCore

/-- Error taxonomy of the core: creation exhaustion, stale or unknown
handles, and timed-out blocking operations. -/
inductive RtosError where
  | InvalidHandle
  | ResourceExhausted
  | WouldBlock
deriving DecidableEq, Repr

/-! ## Bounded queue (IPC) -/

/-- Modelled from the spec: a bounded queue is a fixed-capacity FIFO buffer
of fixed-size items; `capacity` is fixed at creation and `items` holds the
stored items, oldest first.  The FreeRTOS queue implementation is not in the
repository; only callers are. -/
structure BQueue where
  capacity : Nat
  items : List Nat
deriving DecidableEq, Repr

/-- Number of items currently stored in the queue. -/
def qcount (q : BQueue) : Nat := q.items.length

/-- One queue operation of a trace: a send of a value, or a receive. -/
inductive QOp where
  | send (x : Nat)
  | recv
deriving DecidableEq, Repr

/-- A trace state: the queue together with the history of successfully sent
and successfully received items. -/
structure QTrace where
  queue : BQueue
  sent : List Nat
  received : List Nat
deriving DecidableEq, Repr

/-- Modelled from the spec: a single queue step.  A send inserts at the back
when there is room and otherwise fails (would block); a receive removes the
oldest item when one exists and otherwise fails.  Failed operations leave the
queue unchanged and are not recorded as successful. -/
def stepQ (tr : QTrace) : QOp → QTrace
  | .send x =>
    if tr.queue.items.length < tr.queue.capacity then
      { queue := { tr.queue with items := tr.queue.items ++ [x] },
        sent := tr.sent ++ [x], received := tr.received }
    else tr
  | .recv =>
    match tr.queue.items with
    | [] => tr
    | y :: rest =>
      { queue := { tr.queue with items := rest },
        sent := tr.sent, received := tr.received ++ [y] }

/-- Run a whole sequence of queue operations. -/
def runQ (tr : QTrace) (ops : List QOp) : QTrace := ops.foldl stepQ tr

/-- The empty-queue starting trace for a given capacity. -/
def initQ (cap : Nat) : QTrace := ⟨⟨cap, []⟩, [], []⟩

/-- Result of a blocking send attempt. -/
inductive SendRes where
  | ok
  | wouldBlock
deriving DecidableEq, Repr

/-- Outcome of a blocking send: the result, how many ticks the caller was
blocked, and the resulting queue. -/
structure SendOutcome where
  res : SendRes
  blocked : Nat
  queue : BQueue
deriving DecidableEq, Repr

/-- Modelled from the spec: `send(item, timeout)` on a bounded queue.  If
there is room the item is inserted immediately.  On a full queue a zero
timeout fails immediately with a would-block result; otherwise the caller
blocks until room frees (`roomAt` is the tick offset at which room first
becomes available, `none` if never) or the timeout elapses, in which case it
returns would-block with the queue unchanged and the item not inserted. -/
def sendTimeout (q : BQueue) (x : Nat) (timeout : Nat) (roomAt : Option Nat) :
    SendOutcome :=
  if q.items.length < q.capacity then
    ⟨.ok, 0, { q with items := q.items ++ [x] }⟩
  else if timeout = 0 then
    ⟨.wouldBlock, 0, q⟩
  else
    match roomAt with
    | some r =>
      if r ≤ timeout then ⟨.ok, r, { q with items := q.items.tail ++ [x] }⟩
      else ⟨.wouldBlock, timeout, q⟩
    | none => ⟨.wouldBlock, timeout, q⟩

/-! ## Delay subsystem -/

/-- Modelled from the spec: the absolute periodic delay primitive
`delay_until(&mut reference_tick, period)`.  The wake time is
`reference_tick + period`; when that time is still in the future the task
sleeps until it and the reference advances by exactly one period.  When the
computed wake time is already past, the call wakes immediately (at `now`)
and the reference advances only by the whole number of periods elapsed.
Returns `(new reference, actual wake tick)`. -/
def delayUntil (ref : Nat) (period : Nat) (now : Nat) : Nat × Nat :=
  let wake := ref + period
  if now < wake then (wake, wake)
  else (ref + ((now - ref) / period) * period, now)

/-- Run a periodic task loop: starting with reference `ref` and last wake
tick `prevWake`, each list entry is the amount of work done before the next
`delayUntil` call; returns the list of actual wake ticks. -/
def runDU (ref : Nat) (prevWake : Nat) (period : Nat) : List Nat → List Nat
  | [] => []
  | w :: ws =>
    let r := delayUntil ref period (prevWake + w)
    r.2 :: runDU r.1 r.2 period ws

end RtosCore

namespace QueueProducerConsumer

/-- A task created by `xTaskCreate`, identified by its name and priority. -/
structure CreatedTask where
  name : String
  prio : Nat
deriving DecidableEq, Repr

/-- The application state after `app_main` runs: which tasks were created
and the value of the global `queue` handle. -/
structure AppState where
  tasksCreated : List CreatedTask
  queue : Option RtosCore.BQueue
deriving DecidableEq, Repr

/-- Queue length used by queue_producer_consumer.c. -/
def QUEUE_LENGTH : Nat := 5

/-- `app_main` of queue_producer_consumer.c: stores the result of
`xQueueCreate` in the global `queue`; if creation failed it returns without
creating any task, otherwise it creates the producer and consumer tasks at
priority 5. -/
def app_main (createResult : Option RtosCore.BQueue) : AppState :=
  match createResult with
  | none => { tasksCreated := [], queue := none }
  | some q =>
    { tasksCreated := [⟨"Producer", 5⟩, ⟨"Consumer", 5⟩], queue := some q }

end QueueProducerConsumer

namespace TaskDeletionExample

/-- How a simulated task run ended: the task deleted itself via
`vTaskDelete(NULL)`, or the simulation fuel ran out with the task still
looping. -/
inductive TaskExit where
  | selfDeleted
  | fuelOut
deriving DecidableEq, Repr

/-- `hello_task` of task_deletion_example.c, run for at most `fuel` loop
iterations starting from the given counter: each iteration prints the
counter then increments it, delays one second, and deletes itself once the
incremented counter has reached 5.  Returns the printed values and how the
run ended. -/
def hello_task : Nat → Nat → List Nat × TaskExit
  | 0, _ => ([], .fuelOut)
  | fuel + 1, counter =>
    let printed := counter
    let c := counter + 1
    if 5 ≤ c then ([printed], .selfDeleted)
    else
      let r := hello_task fuel c
      (printed :: r.1, r.2)

end TaskDeletionExample

namespace RtosCore

/-! ## Scheduler core data model -/

/-- Task states of the scheduler state machine. -/
inductive TaskState where
  | Ready
  | Running
  | Blocked
  | Suspended
  | Deleted
deriving DecidableEq, Repr

/-- Modelled from the spec: the task control block.  `affinity` is `none`
for "any available execution unit" or `some k` for "pinned to unit k";
`runUnit` records the unit a Running task occupies; `wakeTime` is the
absolute tick at which a Blocked task becomes Ready. -/
structure Task where
  id : Nat
  name : String
  priority : Nat
  affinity : Option Nat
  state : TaskState
  wakeTime : Option Nat
  runUnit : Option Nat
deriving DecidableEq, Repr

/-- Whether a task state is Ready. -/
def isReady : TaskState → Bool
  | .Ready => true
  | _ => false

/-- Whether a task state is Running. -/
def isRunning : TaskState → Bool
  | .Running => true
  | _ => false

/-- Whether the task may run on execution unit `u` (affinity check). -/
def affinityOk (t : Task) (u : Nat) : Bool :=
  match t.affinity with
  | none => true
  | some k => k == u

/-- Whether the task is eligible to be dispatched on unit `u`: it is Ready
and its affinity admits `u`. -/
def eligible (t : Task) (u : Nat) : Bool := isReady t.state && affinityOk t u

/-- Whether the task is currently Running on unit `u`. -/
def isRunningOn (t : Task) (u : Nat) : Bool :=
  isRunning t.state && t.runUnit == some u

/-- Modelled from the spec: index of the highest-priority Ready task
eligible for unit `u` (the FreeRTOS ready-list selection is not in the
repository).  Among equal priorities the earliest index wins. -/
def pickBestIdx : List Task → Nat → Option Nat
  | [], _ => none
  | t :: ts, u =>
    match pickBestIdx ts u with
    | none => if eligible t u then some 0 else none
    | some j =>
      match ts[j]? with
      | none => if eligible t u then some 0 else none
      | some b =>
        if eligible t u ∧ b.priority < t.priority then some 0 else some (j + 1)

/-- Index of the task currently Running on unit `u`, if any. -/
def runIdx : List Task → Nat → Option Nat
  | [], _ => none
  | t :: ts, u => if isRunningOn t u then some 0 else (runIdx ts u).map (· + 1)

/-- Place a task in the Running state on unit `u`. -/
def promote (t : Task) (u : Nat) : Task :=
  { t with state := .Running, runUnit := some u }

/-- Return a preempted task to the Ready state. -/
def demote (t : Task) : Task := { t with state := .Ready, runUnit := none }

/-- Modelled from the spec: one scheduling re-evaluation for unit `u`: the
highest-priority eligible Ready task is placed Running on the unit, and the
currently Running task is preempted (returned to Ready) exactly when the
candidate has strictly higher priority. -/
def reschedule (ts : List Task) (u : Nat) : List Task :=
  match pickBestIdx ts u with
  | none => ts
  | some j =>
    match ts[j]? with
    | none => ts
    | some b =>
      match runIdx ts u with
      | none => ts.set j (promote b u)
      | some jc =>
        match ts[jc]? with
        | none => ts
        | some r =>
          if r.priority < b.priority then
            (ts.set jc (demote r)).set j (promote b u)
          else ts

/-- Re-evaluate scheduling on every execution unit in order. -/
def rescheduleAll (ts : List Task) (numUnits : Nat) : List Task :=
  (List.range numUnits).foldl reschedule ts

/-- Modelled from the spec: the scheduler context: the task registry, the
number of execution units, the ready queue (task ids) and the wait-lists of
the blocking resources (task ids, FIFO order). -/
structure Sys where
  tasks : List Task
  numUnits : Nat
  readyList : List Nat
  waitLists : List (List Nat)
deriving DecidableEq, Repr

/-- Look a task up by handle (its id). -/
def findTask (s : Sys) (h : Nat) : Option Task :=
  s.tasks.find? (fun t => t.id == h)

/-- Modelled from the spec: `delete_task(handle)`.  An unknown handle or a
handle whose task is already Deleted yields `InvalidHandle`; otherwise the
task transitions to Deleted and, atomically with that transition, its id is
removed from the ready queue and from every wait-list. -/
def deleteTask (s : Sys) (h : Nat) : Except RtosError Sys :=
  match findTask s h with
  | none => .error .InvalidHandle
  | some t =>
    if t.state = .Deleted then .error .InvalidHandle
    else .ok { s with
      tasks := s.tasks.map fun v =>
        if v.id = h then { v with state := .Deleted, runUnit := none } else v,
      readyList := s.readyList.filter (fun i => !(i == h)),
      waitLists := s.waitLists.map fun l => l.filter (fun i => !(i == h)) }

/-- Modelled from the spec: `suspend_task(handle)`; fails with
`InvalidHandle` on deleted or unknown handles. -/
def suspendTask (s : Sys) (h : Nat) : Except RtosError Sys :=
  match findTask s h with
  | none => .error .InvalidHandle
  | some t =>
    if t.state = .Deleted then .error .InvalidHandle
    else .ok { s with
      tasks := s.tasks.map fun v =>
        if v.id = h then { v with state := .Suspended, runUnit := none } else v,
      readyList := s.readyList.filter (fun i => !(i == h)) }

/-- Modelled from the spec: `resume_task(handle)`; only a Suspended task is
moved back to Ready; fails with `InvalidHandle` on deleted or unknown
handles. -/
def resumeTask (s : Sys) (h : Nat) : Except RtosError Sys :=
  match findTask s h with
  | none => .error .InvalidHandle
  | some t =>
    if t.state = .Deleted then .error .InvalidHandle
    else .ok { s with
      tasks := s.tasks.map fun v =>
        if v.id = h ∧ v.state = .Suspended then { v with state := .Ready } else v }

/-- Modelled from the spec: `set_priority(handle, new_priority)`; fails with
`InvalidHandle` on deleted or unknown handles, otherwise updates the
priority and synchronously re-evaluates scheduling on every unit before
returning. -/
def setPriorityTask (s : Sys) (h : Nat) (newp : Nat) : Except RtosError Sys :=
  match findTask s h with
  | none => .error .InvalidHandle
  | some t =>
    if t.state = .Deleted then .error .InvalidHandle
    else .ok { s with
      tasks := rescheduleAll
        (s.tasks.map fun v => if v.id = h then { v with priority := newp } else v)
        s.numUnits }

/-- Modelled from the spec: the periodic tick check of the scheduler: every
Blocked task whose wake time has arrived becomes Ready.  Suspended tasks are
unaffected — suspension is immune to elapsed-delay wake events. -/
def tickWake (ts : List Task) (now : Nat) : List Task :=
  ts.map fun t =>
    match t.state, t.wakeTime with
    | .Blocked, some w =>
      if w ≤ now then { t with state := .Ready, wakeTime := none } else t
    | _, _ => t

/-- Modelled from the spec: wake the first waiter of a FIFO wait-list (as a
queue does after a send or receive frees the resource).  Only a Blocked
waiter becomes Ready; a Suspended task is immune to queue wake-ups. -/
def wakeFirstWaiter (ts : List Task) (waiters : List Nat) :
    List Task × List Nat :=
  match waiters with
  | [] => (ts, [])
  | w :: ws =>
    (ts.map fun t =>
      if t.id = w ∧ t.state = .Blocked then { t with state := .Ready } else t,
     ws)

end RtosCore

/-! ## Theorems -/

namespace RtosCore

/-- A queue step preserves the capacity, keeps the item count within the
capacity, and keeps the successfully sent history equal to the received
history followed by the items still stored. -/
theorem stepQ_inv (tr : QTrace) (op : QOp)
    (hlen : tr.queue.items.length ≤ tr.queue.capacity)
    (hsent : tr.sent = tr.received ++ tr.queue.items) :
    (stepQ tr op).queue.capacity = tr.queue.capacity ∧
    (stepQ tr op).queue.items.length ≤ tr.queue.capacity ∧
    (stepQ tr op).sent = (stepQ tr op).received ++ (stepQ tr op).queue.items := by
  cases op with
  | send x =>
    by_cases hroom : tr.queue.items.length < tr.queue.capacity
    · refine ⟨by simp [stepQ, hroom], ?_, ?_⟩
      · simp only [stepQ, if_pos hroom, List.length_append, List.length_cons,
          List.length_nil]
        omega
      · simp [stepQ, hroom, hsent]
    · exact ⟨by simp [stepQ, hroom], by simp [stepQ, hroom, hlen],
        by simp [stepQ, hroom, hsent]⟩
  | recv =>
    cases hq : tr.queue.items with
    | nil => exact ⟨by simp [stepQ, hq], by simp [stepQ, hq, hlen],
        by simp [stepQ, hq, hsent]⟩
    | cons y rest =>
      have hlen2 : rest.length ≤ tr.queue.capacity := by
        rw [hq] at hlen; simp at hlen; omega
      refine ⟨by simp [stepQ, hq], by simpa [stepQ, hq] using hlen2, ?_⟩
      simp only [stepQ, hq]
      rw [hsent, hq]
      simp

/-- Running any sequence of queue operations preserves the queue invariant:
capacity is unchanged, the count stays within capacity, and the sent history
equals the received history followed by the stored items. -/
theorem runQ_inv (ops : List QOp) : ∀ (tr : QTrace),
    tr.queue.items.length ≤ tr.queue.capacity →
    tr.sent = tr.received ++ tr.queue.items →
    (runQ tr ops).queue.capacity = tr.queue.capacity ∧
    (runQ tr ops).queue.items.length ≤ tr.queue.capacity ∧
    (runQ tr ops).sent = (runQ tr ops).received ++ (runQ tr ops).queue.items := by
  induction ops with
  | nil => exact fun tr h1 h2 => ⟨rfl, h1, h2⟩
  | cons op ops ih =>
    intro tr h1 h2
    have hs := stepQ_inv tr op h1 h2
    have hrec := ih (stepQ tr op) (hs.1 ▸ hs.2.1) hs.2.2
    simp only [runQ, List.foldl_cons] at *
    exact ⟨hrec.1.trans hs.1, hs.1 ▸ hrec.2.1, hrec.2.2⟩

/-- Claim C2: for every bounded queue of capacity C and every sequence of
send and receive operations starting from the empty queue, the item count
never exceeds C (and, being a natural number, never drops below 0), and
items are received in exactly the order in which they were successfully
sent: the k-th successful receive returns the item of the k-th successful
send. -/
theorem spec_c2_bounded_queue_fifo (cap : Nat) (ops : List QOp) (_hcap : 0 < cap) :
    (runQ (initQ cap) ops).queue.items.length ≤ cap ∧
    (runQ (initQ cap) ops).sent =
      (runQ (initQ cap) ops).received ++ (runQ (initQ cap) ops).queue.items ∧
    ∀ k, k < (runQ (initQ cap) ops).received.length →
      (runQ (initQ cap) ops).received[k]? = (runQ (initQ cap) ops).sent[k]? := by
  have h := runQ_inv ops (initQ cap) (by simp [initQ]) (by simp [initQ])
  refine ⟨h.2.1, h.2.2, fun k hk => ?_⟩
  rw [h.2.2, List.getElem?_append_left hk]

/-- Witness for C2 at capacity 2 and a concrete operation sequence that
overfills the queue and then drains it. -/
theorem spec_c2_bounded_queue_fifo_witness :
    (0 < 2) ∧
    ((runQ (initQ 2) [.send 7, .send 8, .send 9, .recv, .recv]).queue.items.length ≤ 2 ∧
    (runQ (initQ 2) [.send 7, .send 8, .send 9, .recv, .recv]).sent =
      (runQ (initQ 2) [.send 7, .send 8, .send 9, .recv, .recv]).received ++
        (runQ (initQ 2) [.send 7, .send 8, .send 9, .recv, .recv]).queue.items ∧
    ∀ k, k < (runQ (initQ 2) [.send 7, .send 8, .send 9, .recv, .recv]).received.length →
      (runQ (initQ 2) [.send 7, .send 8, .send 9, .recv, .recv]).received[k]? =
        (runQ (initQ 2) [.send 7, .send 8, .send 9, .recv, .recv]).sent[k]?) :=
  ⟨by decide, spec_c2_bounded_queue_fifo 2 [.send 7, .send 8, .send 9, .recv, .recv]
    (by decide)⟩

/-- When a `delayUntil` call happens no later than its deadline (the work
since the last wake was at most one period), the task wakes exactly at
`reference + period` and the reference advances by exactly one period. -/
theorem delayUntil_on_time (ref period w : Nat) (hP : 0 < period)
    (hw : w ≤ period) :
    delayUntil ref period (ref + w) = (ref + period, ref + period) := by
  unfold delayUntil
  rcases Nat.lt_or_ge w period with h | h
  · rw [if_pos (Nat.add_lt_add_left h ref)]
  · have hwp : w = period := Nat.le_antisymm hw h
    subst hwp
    rw [if_neg (Nat.lt_irrefl _)]
    simp [Nat.add_sub_cancel_left, Nat.div_self hP]

/-- Claim C3: a task calling `delayUntil` periodically with period P from
initial reference r0, never working longer than P between calls, wakes at
exactly the arithmetic progression r0 + k·P for k = 1, 2, ... — the nominal
schedule never drifts regardless of how much work precedes each call. -/
theorem spec_c3_delay_until_no_drift (period : Nat) (works : List Nat)
    (hP : 0 < period) : ∀ (r0 : Nat), (∀ w ∈ works, w ≤ period) →
    runDU r0 r0 period works =
      (List.range works.length).map (fun k => r0 + (k + 1) * period) := by
  induction works with
  | nil => intro r0 _; simp [runDU]
  | cons w ws ih =>
    intro r0 hw
    have hw0 : w ≤ period := hw w (by simp)
    have hws : ∀ x ∈ ws, x ≤ period := fun x hx => hw x (by simp [hx])
    simp only [runDU, delayUntil_on_time r0 period w hP hw0]
    rw [ih (r0 + period) hws]
    simp only [List.length_cons, List.range_succ_eq_map, List.map_cons,
      List.map_map]
    rw [List.cons_eq_cons]
    constructor
    · omega
    · refine List.map_congr_left fun a _ => ?_
      simp only [Function.comp_apply, Nat.succ_eq_add_one]
      ring

/-- Witness for C3: reference 100, period 10, three iterations with work
durations 4, 10 and 0 wake at exactly 110, 120, 130. -/
theorem spec_c3_delay_until_no_drift_witness :
    (0 < 10) ∧ (∀ w ∈ [4, 10, 0], w ≤ 10) ∧
    runDU 100 100 10 [4, 10, 0] =
      (List.range ([4, 10, 0] : List Nat).length).map (fun k => 100 + (k + 1) * 10) :=
  ⟨by decide, by decide, spec_c3_delay_until_no_drift 10 [4, 10, 0] (by decide)
    100 (by decide)⟩

/-- Claim C4: when the computed wake time `reference + period` is already in
the past, `delayUntil` wakes immediately (at `now`, without sleeping) and
advances the reference by the whole number of periods elapsed; the advanced
reference satisfies `now < reference + period`, so the missed periods are
not re-delivered one at a time as immediate wake-ups. -/
theorem spec_c4_delay_until_catchup (ref period now : Nat) (hP : 0 < period)
    (hlate : ref + period ≤ now) :
    (delayUntil ref period now).2 = now ∧
    (delayUntil ref period now).1 = ref + ((now - ref) / period) * period ∧
    (delayUntil ref period now).1 ≤ now ∧
    now < (delayUntil ref period now).1 + period := by
  have hnl : ¬ now < ref + period := Nat.not_lt.mpr hlate
  unfold delayUntil
  rw [if_neg hnl]
  refine ⟨rfl, rfl, ?_, ?_⟩
  · have h1 : (now - ref) / period * period ≤ now - ref :=
      Nat.div_mul_le_self _ _
    omega
  · have h2 := Nat.div_add_mod (now - ref) period
    have h3 := Nat.mod_lt (now - ref) hP
    rw [Nat.mul_comm] at h2
    omega

/-- Witness for C4: reference 0, period 5, called at tick 17: the task wakes
at 17 and the reference advances to 15 (three whole periods); 17 < 15 + 5. -/
theorem spec_c4_delay_until_catchup_witness :
    (0 < 5) ∧ (0 + 5 ≤ 17) ∧
    ((delayUntil 0 5 17).2 = 17 ∧
    (delayUntil 0 5 17).1 = 0 + ((17 - 0) / 5) * 5 ∧
    (delayUntil 0 5 17).1 ≤ 17 ∧
    17 < (delayUntil 0 5 17).1 + 5) :=
  ⟨by decide, by decide, spec_c4_delay_until_catchup 0 5 17 (by decide) (by decide)⟩

/-- Claim C6: a send on a full queue fails immediately with a would-block
result when the timeout is zero; with a finite timeout t after which no room
became available, the caller is blocked at most t ticks and receives a
would-block result with the item not inserted and the queue unchanged; no
retry happens inside the primitive. -/
theorem spec_c6_send_full_queue (q : BQueue) (x t : Nat) (roomAt : Option Nat)
    (hfull : q.items.length = q.capacity)
    (hnoroom : ∀ r, roomAt = some r → t < r) :
    sendTimeout q x 0 roomAt = ⟨.wouldBlock, 0, q⟩ ∧
    (sendTimeout q x t roomAt).res = .wouldBlock ∧
    (sendTimeout q x t roomAt).blocked ≤ t ∧
    (sendTimeout q x t roomAt).queue = q := by
  have hnr : ¬ q.items.length < q.capacity := by omega
  refine ⟨by simp [sendTimeout, hnr], ?_⟩
  by_cases ht : t = 0
  · subst ht; simp [sendTimeout, hnr]
  · cases hr : roomAt with
    | none => simp [sendTimeout, hnr, ht, hr]
    | some r =>
      have h1 : t < r := hnoroom r hr
      have h2 : ¬ r ≤ t := by omega
      simp [sendTimeout, hnr, ht, hr, h2]

/-- Witness for C6: a full queue of capacity 1 holding item 5; a send of 6
with timeout 0 would-blocks immediately, and with timeout 3 and no room ever
freeing it would-blocks with the queue unchanged. -/
theorem spec_c6_send_full_queue_witness :
    ((⟨1, [5]⟩ : BQueue).items.length = (⟨1, [5]⟩ : BQueue).capacity) ∧
    (sendTimeout ⟨1, [5]⟩ 6 0 none = ⟨.wouldBlock, 0, ⟨1, [5]⟩⟩ ∧
    (sendTimeout ⟨1, [5]⟩ 6 3 none).res = .wouldBlock ∧
    (sendTimeout ⟨1, [5]⟩ 6 3 none).blocked ≤ 3 ∧
    (sendTimeout ⟨1, [5]⟩ 6 3 none).queue = ⟨1, [5]⟩) :=
  ⟨by decide, spec_c6_send_full_queue ⟨1, [5]⟩ 6 3 none (by decide)
    (fun r hr => nomatch hr)⟩

end RtosCore

namespace QueueProducerConsumer

/-- Claim C9: if `xQueueCreate` fails and returns a null handle, `app_main`
creates no tasks and returns immediately; the producer and consumer tasks
are spawned only after queue creation succeeds, and the global queue they
operate on is exactly the successfully created handle. -/
theorem spec_c9_app_main_guard (r : Option RtosCore.BQueue) :
    (r = none → app_main r = ⟨[], none⟩) ∧
    (∀ q, r = some q →
      (app_main r).tasksCreated = [⟨"Producer", 5⟩, ⟨"Consumer", 5⟩] ∧
      (app_main r).queue = some q) := by
  constructor
  · intro h; subst h; rfl
  · intro q h; subst h; exact ⟨rfl, rfl⟩

/-- Witness for C9: with a failed creation no tasks are created; with a
successful creation of an empty queue of capacity 5 both tasks are created
and the global handle is the created queue. -/
theorem spec_c9_app_main_guard_witness :
    app_main none = ⟨[], none⟩ ∧
    (app_main (some ⟨5, []⟩)).tasksCreated = [⟨"Producer", 5⟩, ⟨"Consumer", 5⟩] ∧
    (app_main (some ⟨5, []⟩)).queue = some ⟨5, []⟩ :=
  ⟨(spec_c9_app_main_guard none).1 rfl,
   ((spec_c9_app_main_guard (some ⟨5, []⟩)).2 ⟨5, []⟩ rfl).1,
   ((spec_c9_app_main_guard (some ⟨5, []⟩)).2 ⟨5, []⟩ rfl).2⟩

end QueueProducerConsumer

namespace TaskDeletionExample

/-- Claim C10: if not deleted externally first, `hello_task` performs
exactly 5 iterations, printing counter values 0 through 4, and then deletes
itself; it never executes a sixth print and never returns from its entry
function (any fuel of at least 5 iterations gives the same prints and ends
in self-deletion, never by falling out of the loop). -/
theorem spec_c10_hello_task_five_iterations (n : Nat) :
    hello_task (n + 5) 0 = ([0, 1, 2, 3, 4], .selfDeleted) := rfl

end TaskDeletionExample

namespace RtosCore

/-- The selection index returned by `pickBestIdx` is within bounds. -/
theorem pickBestIdx_lt (u : Nat) : ∀ (ts : List Task) (j : Nat),
    pickBestIdx ts u = some j → j < ts.length := by
  intro ts
  induction ts with
  | nil => intro j h; simp [pickBestIdx] at h
  | cons t ts ih =>
    intro j h
    simp only [pickBestIdx] at h
    split at h
    · split at h
      · simp at h; simp only [List.length_cons]; omega
      · simp at h
    · rename_i j0 htl
      split at h
      · split at h
        · simp at h; simp only [List.length_cons]; omega
        · simp at h
      · split at h
        · simp at h; simp only [List.length_cons]; omega
        · simp at h
          have := ih j0 htl
          simp only [List.length_cons]
          omega

/-- The task selected by `pickBestIdx` exists and is eligible. -/
theorem pickBestIdx_eligible (u : Nat) : ∀ (ts : List Task) (j : Nat),
    pickBestIdx ts u = some j → ∃ b, ts[j]? = some b ∧ eligible b u = true := by
  intro ts
  induction ts with
  | nil => intro j h; simp [pickBestIdx] at h
  | cons t ts ih =>
    intro j h
    simp only [pickBestIdx] at h
    split at h
    · split at h
      · rename_i he
        simp at h
        exact ⟨t, by simp [← h], he⟩
      · simp at h
    · rename_i j0 htl
      split at h
      · split at h
        · rename_i he
          simp at h
          exact ⟨t, by simp [← h], he⟩
        · simp at h
      · split at h
        · rename_i hcond
          simp at h
          exact ⟨t, by simp [← h], hcond.1⟩
        · simp at h
          obtain ⟨b, hb1, hb2⟩ := ih j0 htl
          exact ⟨b, by simp [← h, hb1], hb2⟩

/-- When `pickBestIdx` returns no index, no task in the list is eligible. -/
theorem pickBestIdx_none (u : Nat) : ∀ (ts : List Task),
    pickBestIdx ts u = none →
    ∀ (m : Nat) (c : Task), ts[m]? = some c → eligible c u = false := by
  intro ts
  induction ts with
  | nil => intro _ m c hc; simp at hc
  | cons t ts ih =>
    intro h m c hc
    simp only [pickBestIdx] at h
    split at h
    · rename_i htl
      split at h
      · simp at h
      · rename_i he
        cases m with
        | zero =>
          simp at hc
          subst hc
          exact Bool.not_eq_true _ ▸ (by simpa using he)
        | succ m => exact ih htl m c (by simpa using hc)
    · rename_i j0 htl
      have hj0 := pickBestIdx_lt u ts j0 htl
      split at h
      · rename_i heq
        rw [List.getElem?_eq_getElem hj0] at heq
        simp at heq
      · split at h <;> simp at h

/-- The task selected by `pickBestIdx` has maximal priority among all
eligible tasks of the list. -/
theorem pickBestIdx_max (u : Nat) : ∀ (ts : List Task) (j : Nat) (b : Task),
    pickBestIdx ts u = some j → ts[j]? = some b →
    ∀ (m : Nat) (c : Task), ts[m]? = some c → eligible c u = true →
    c.priority ≤ b.priority := by
  intro ts
  induction ts with
  | nil => intro j b h; simp [pickBestIdx] at h
  | cons t ts ih =>
    intro j b h hb m c hc helig
    simp only [pickBestIdx] at h
    split at h
    · rename_i htl
      split at h
      · rename_i he
        simp at h
        subst h
        simp at hb
        subst hb
        cases m with
        | zero => simp at hc; subst hc; exact Nat.le_refl _
        | succ m =>
          have := pickBestIdx_none u ts htl m c (by simpa using hc)
          rw [helig] at this
          simp at this
      · simp at h
    · rename_i j0 htl
      obtain ⟨b0, hb0, _⟩ := pickBestIdx_eligible u ts j0 htl
      have hj0 := pickBestIdx_lt u ts j0 htl
      split at h
      · rename_i hnone
        rw [hb0] at hnone
        simp at hnone
      · rename_i b0x hb0x
        rw [hb0] at hb0x
        injection hb0x with hb0x
        subst hb0x
        split at h
        · rename_i hcond
          simp at h
          subst h
          simp at hb
          subst hb
          cases m with
          | zero => simp at hc; subst hc; exact Nat.le_refl _
          | succ m =>
            have := ih j0 b0 htl hb0 m c (by simpa using hc) helig
            exact Nat.le_trans this (Nat.le_of_lt hcond.2)
        · rename_i hcond
          simp at h
          subst h
          simp only [List.getElem?_cons_succ] at hb
          rw [hb0] at hb
          injection hb with hb
          subst hb
          cases m with
          | zero =>
            have hct : t = c := by simpa using hc
            subst hct
            have hnlt : ¬ b0.priority < t.priority := fun hlt => hcond ⟨helig, hlt⟩
            omega
          | succ m =>
            exact ih j0 b0 htl hb0 m c (by simpa using hc) helig

/-- The index returned by `runIdx` points at a task Running on the unit. -/
theorem runIdx_some (u : Nat) : ∀ (ts : List Task) (j : Nat),
    runIdx ts u = some j → ∃ r, ts[j]? = some r ∧ isRunningOn r u = true := by
  intro ts
  induction ts with
  | nil => intro j h; simp [runIdx] at h
  | cons t ts ih =>
    intro j h
    simp only [runIdx] at h
    split at h
    · rename_i hrun
      simp at h
      exact ⟨t, by simp [← h], hrun⟩
    · simp only [Option.map_eq_some'] at h
      obtain ⟨j0, hj0, hj⟩ := h
      obtain ⟨r, hr1, hr2⟩ := ih j0 hj0
      exact ⟨r, by simp [← hj, hr1], hr2⟩

/-- When `runIdx` returns no index, no task in the list is Running on the
unit. -/
theorem runIdx_none (u : Nat) : ∀ (ts : List Task),
    runIdx ts u = none →
    ∀ (m : Nat) (c : Task), ts[m]? = some c → isRunningOn c u = false := by
  intro ts
  induction ts with
  | nil => intro _ m c hc; simp at hc
  | cons t ts ih =>
    intro h m c hc
    simp only [runIdx] at h
    split at h
    · simp at h
    · rename_i hrun
      simp only [Option.map_eq_none'] at h
      cases m with
      | zero =>
        simp at hc
        subst hc
        exact Bool.not_eq_true _ ▸ (by simpa using hrun)
      | succ m => exact ih h m c (by simpa using hc)

/-- A task state cannot be both Ready and Running. -/
theorem not_isReady_isRunning (s : TaskState) :
    isReady s = true → isRunning s = true → False := by
  cases s <;> simp [isReady, isRunning]

/-- Reading an index of a list after a `set`: either the set index was read
(and the written element comes back), or the original list is read. -/
theorem getElem?_set_cases {α : Type} {l : List α} {j m : Nat} {a x : α}
    (h : (l.set j a)[m]? = some x) :
    (m = j ∧ m < l.length ∧ x = a) ∨ (m ≠ j ∧ l[m]? = some x) := by
  obtain ⟨hm, heq⟩ := List.getElem?_eq_some_iff.mp h
  have hmlt : m < l.length := by simpa using hm
  by_cases hmj : m = j
  · subst hmj
    rw [List.getElem_set_self] at heq
    exact Or.inl ⟨rfl, hmlt, heq.symm⟩
  · refine Or.inr ⟨hmj, ?_⟩
    rw [List.getElem_set_ne (fun hh => hmj hh.symm)] at heq
    rw [List.getElem?_eq_getElem hmlt]
    exact congrArg some heq

/-- Claim C1: after a scheduling re-evaluation for an execution unit,
assuming at most one task was Running on that unit, every task Running on
the unit has at least the priority of every Ready task eligible for the
unit: the scheduler runs the maximum-priority eligible task and never a
lower-priority task while a strictly higher-priority eligible task is
Ready. -/
theorem spec_c1_scheduler_max_priority (ts : List Task) (u : Nat)
    (huniq : ∀ m (hm : m < ts.length) n (hn : n < ts.length),
      isRunningOn (ts.get ⟨m, hm⟩) u = true →
      isRunningOn (ts.get ⟨n, hn⟩) u = true → m = n) :
    ∀ (m : Nat) (rm : Task), (reschedule ts u)[m]? = some rm →
      isRunningOn rm u = true →
    ∀ (k : Nat) (c : Task), (reschedule ts u)[k]? = some c →
      eligible c u = true →
    c.priority ≤ rm.priority := by
  intro m rm hmq hrun k c hkq helig
  cases hpb : pickBestIdx ts u with
  | none =>
    have hr : reschedule ts u = ts := by unfold reschedule; rw [hpb]
    rw [hr] at hkq
    have := pickBestIdx_none u ts hpb k c hkq
    rw [helig] at this
    simp at this
  | some j =>
    obtain ⟨b, hjb, hbel⟩ := pickBestIdx_eligible u ts j hpb
    have hjlt := pickBestIdx_lt u ts j hpb
    cases hri : runIdx ts u with
    | none =>
      have hr : reschedule ts u = ts.set j (promote b u) := by
        simp [reschedule, hpb, hjb, hri]
      rw [hr] at hmq hkq
      rcases getElem?_set_cases hmq with ⟨hmj, _, hrm⟩ | ⟨hmj, hts⟩
      · subst hrm
        rcases getElem?_set_cases hkq with ⟨hkj, _, hc⟩ | ⟨hkj, hts2⟩
        · subst hc
          simp [eligible, promote, isReady] at helig
        · have := pickBestIdx_max u ts j b hpb hjb k c hts2 helig
          simpa [promote] using this
      · have := runIdx_none u ts hri m rm hts
        rw [hrun] at this
        simp at this
    | some jc =>
      obtain ⟨r, hjcr, hrr⟩ := runIdx_some u ts jc hri
      obtain ⟨hjclt, hjceq⟩ := List.getElem?_eq_some_iff.mp hjcr
      have hbR : isReady b.state = true := by
        have hx := hbel
        simp [eligible] at hx
        exact hx.1
      have hrR : isRunning r.state = true := by
        have hx := hrr
        simp [isRunningOn] at hx
        exact hx.1
      have hjne : j ≠ jc := by
        intro hh
        subst hh
        rw [hjb] at hjcr
        injection hjcr with hbr
        subst hbr
        exact not_isReady_isRunning _ hbR hrR
      by_cases hlt : r.priority < b.priority
      · have hr : reschedule ts u =
            (ts.set jc (demote r)).set j (promote b u) := by
          simp [reschedule, hpb, hjb, hri, hjcr, hlt]
        rw [hr] at hmq hkq
        rcases getElem?_set_cases hmq with ⟨hmj, _, hrm⟩ | ⟨hmj, hts⟩
        · subst hrm
          rcases getElem?_set_cases hkq with ⟨hkj, _, hc⟩ | ⟨hkj, hts2⟩
          · subst hc
            simp [eligible, promote, isReady] at helig
          · rcases getElem?_set_cases hts2 with ⟨hkjc, _, hc⟩ | ⟨hkjc, hts3⟩
            · subst hc
              simp only [promote, demote]
              omega
            · have := pickBestIdx_max u ts j b hpb hjb k c hts3 helig
              simpa [promote] using this
        · rcases getElem?_set_cases hts with ⟨hmjc, _, hrm⟩ | ⟨hmjc, hts4⟩
          · subst hrm
            simp [isRunningOn, demote, isRunning] at hrun
          · obtain ⟨hmlt, hmeq⟩ := List.getElem?_eq_some_iff.mp hts4
            have := huniq m hmlt jc hjclt
              (by rw [List.get_eq_getElem, hmeq]; exact hrun)
              (by rw [List.get_eq_getElem, hjceq]; exact hrr)
            exact absurd this hmjc
      · have hr : reschedule ts u = ts := by
          simp [reschedule, hpb, hjb, hri, hjcr, hlt]
        rw [hr] at hmq hkq
        obtain ⟨hmlt, hmeq⟩ := List.getElem?_eq_some_iff.mp hmq
        have hmjc := huniq m hmlt jc hjclt
          (by rw [List.get_eq_getElem, hmeq]; exact hrun)
          (by rw [List.get_eq_getElem, hjceq]; exact hrr)
        subst hmjc
        rw [hjcr] at hmq
        injection hmq with hmr
        subst hmr
        have h1 := pickBestIdx_max u ts j b hpb hjb k c hkq helig
        have h2 := Nat.not_lt.mp hlt
        omega

/-- Witness for C1: two Ready tasks of priorities 3 and 8 on one unit; after
rescheduling, the priority-8 task is Running and dominates the still-Ready
priority-3 task. -/
theorem spec_c1_scheduler_max_priority_witness :
    (∀ m (hm : m < ([⟨0, "low", 3, none, .Ready, none, none⟩,
        ⟨1, "high", 8, none, .Ready, none, none⟩] : List Task).length)
        n (hn : n < ([⟨0, "low", 3, none, .Ready, none, none⟩,
        ⟨1, "high", 8, none, .Ready, none, none⟩] : List Task).length),
      isRunningOn (([⟨0, "low", 3, none, .Ready, none, none⟩,
        ⟨1, "high", 8, none, .Ready, none, none⟩] : List Task).get ⟨m, hm⟩) 0 = true →
      isRunningOn (([⟨0, "low", 3, none, .Ready, none, none⟩,
        ⟨1, "high", 8, none, .Ready, none, none⟩] : List Task).get ⟨n, hn⟩) 0 = true →
      m = n) ∧
    (∀ (m : Nat) (rm : Task),
      (reschedule [⟨0, "low", 3, none, .Ready, none, none⟩,
        ⟨1, "high", 8, none, .Ready, none, none⟩] 0)[m]? = some rm →
      isRunningOn rm 0 = true →
    ∀ (k : Nat) (c : Task),
      (reschedule [⟨0, "low", 3, none, .Ready, none, none⟩,
        ⟨1, "high", 8, none, .Ready, none, none⟩] 0)[k]? = some c →
      eligible c 0 = true →
    c.priority ≤ rm.priority) :=
  ⟨by decide, spec_c1_scheduler_max_priority
    [⟨0, "low", 3, none, .Ready, none, none⟩,
     ⟨1, "high", 8, none, .Ready, none, none⟩] 0 (by decide)⟩

/-- A state is Ready exactly when `isReady` holds. -/
theorem isReady_iff (st : TaskState) : isReady st = true ↔ st = TaskState.Ready := by
  cases st <;> simp [isReady]

/-- Claim C5: operating on a handle whose task is already Deleted returns
an InvalidHandle result for delete, suspend, resume and set-priority alike,
never undefined behavior; and a successful deletion removes the task from
the ready queue and from every wait-list atomically with its transition to
the Deleted state. -/
theorem spec_c5_deleted_handle_semantics (s : Sys) (h1 h2 p : Nat)
    (t1 t2 : Task)
    (hf1 : findTask s h1 = some t1) (hd1 : t1.state = TaskState.Deleted)
    (hf2 : findTask s h2 = some t2) (hd2 : t2.state ≠ TaskState.Deleted) :
    deleteTask s h1 = .error .InvalidHandle ∧
    suspendTask s h1 = .error .InvalidHandle ∧
    resumeTask s h1 = .error .InvalidHandle ∧
    setPriorityTask s h1 p = .error .InvalidHandle ∧
    ∃ s2, deleteTask s h2 = .ok s2 ∧
      h2 ∉ s2.readyList ∧
      (∀ l ∈ s2.waitLists, h2 ∉ l) ∧
      (∀ v ∈ s2.tasks, v.id = h2 → v.state = TaskState.Deleted) := by
  refine ⟨by simp [deleteTask, hf1, hd1], by simp [suspendTask, hf1, hd1],
    by simp [resumeTask, hf1, hd1], by simp [setPriorityTask, hf1, hd1], ?_⟩
  have hok : deleteTask s h2 = .ok { s with
      tasks := s.tasks.map fun v =>
        if v.id = h2 then { v with state := .Deleted, runUnit := none } else v,
      readyList := s.readyList.filter (fun i => !(i == h2)),
      waitLists := s.waitLists.map fun l => l.filter (fun i => !(i == h2)) } := by
    simp [deleteTask, hf2, hd2]
  refine ⟨_, hok, ?_, ?_, ?_⟩
  · intro hmem
    have := (List.mem_filter.mp hmem).2
    simp at this
  · intro l hl hmem
    obtain ⟨l0, _, hl0⟩ := List.mem_map.mp hl
    rw [← hl0] at hmem
    have := (List.mem_filter.mp hmem).2
    simp at this
  · intro v hv hvid
    obtain ⟨v0, hv0, hveq⟩ := List.mem_map.mp hv
    by_cases hid : v0.id = h2
    · rw [← hveq]
      simp [hid]
    · rw [← hveq] at hvid
      simp [hid] at hvid

/-- Witness for C5 on a two-task system: handle 0 is already Deleted (all
four operations fail with InvalidHandle), handle 1 is Ready and its deletion
scrubs it from the ready queue and the wait-list. -/
theorem spec_c5_deleted_handle_semantics_witness :
    (findTask ⟨[⟨0, "dead", 1, none, .Deleted, none, none⟩,
        ⟨1, "live", 2, none, .Ready, none, none⟩], 1, [1], [[1]]⟩ 0 =
      some ⟨0, "dead", 1, none, .Deleted, none, none⟩) ∧
    (findTask ⟨[⟨0, "dead", 1, none, .Deleted, none, none⟩,
        ⟨1, "live", 2, none, .Ready, none, none⟩], 1, [1], [[1]]⟩ 1 =
      some ⟨1, "live", 2, none, .Ready, none, none⟩) ∧
    (deleteTask ⟨[⟨0, "dead", 1, none, .Deleted, none, none⟩,
        ⟨1, "live", 2, none, .Ready, none, none⟩], 1, [1], [[1]]⟩ 0 =
      .error .InvalidHandle ∧
    suspendTask ⟨[⟨0, "dead", 1, none, .Deleted, none, none⟩,
        ⟨1, "live", 2, none, .Ready, none, none⟩], 1, [1], [[1]]⟩ 0 =
      .error .InvalidHandle ∧
    resumeTask ⟨[⟨0, "dead", 1, none, .Deleted, none, none⟩,
        ⟨1, "live", 2, none, .Ready, none, none⟩], 1, [1], [[1]]⟩ 0 =
      .error .InvalidHandle ∧
    setPriorityTask ⟨[⟨0, "dead", 1, none, .Deleted, none, none⟩,
        ⟨1, "live", 2, none, .Ready, none, none⟩], 1, [1], [[1]]⟩ 0 7 =
      .error .InvalidHandle ∧
    ∃ s2, deleteTask ⟨[⟨0, "dead", 1, none, .Deleted, none, none⟩,
        ⟨1, "live", 2, none, .Ready, none, none⟩], 1, [1], [[1]]⟩ 1 = .ok s2 ∧
      1 ∉ s2.readyList ∧
      (∀ l ∈ s2.waitLists, 1 ∉ l) ∧
      (∀ v ∈ s2.tasks, v.id = 1 → v.state = TaskState.Deleted)) :=
  ⟨by decide, by decide,
   spec_c5_deleted_handle_semantics
     ⟨[⟨0, "dead", 1, none, .Deleted, none, none⟩,
       ⟨1, "live", 2, none, .Ready, none, none⟩], 1, [1], [[1]]⟩ 0 1 7
     ⟨0, "dead", 1, none, .Deleted, none, none⟩
     ⟨1, "live", 2, none, .Ready, none, none⟩
     (by decide) (by decide) (by decide) (by decide)⟩

/-- Claim C7: a Suspended task is never the one selected by the scheduler,
is immune to elapsed-delay wake-ups and to queue wake-ups, and transitions
back to Ready precisely through an explicit resume of its handle. -/
theorem spec_c7_suspension_sticky (ts : List Task) (t : Task) (u now : Nat)
    (waiters : List Nat) (s : Sys) (hdl : Nat) (tt : Task)
    (hmem : t ∈ ts) (hsusp : t.state = TaskState.Suspended)
    (hfind : findTask s hdl = some tt) (htt : tt.state = TaskState.Suspended) :
    (∀ j : Nat, pickBestIdx ts u = some j → ∃ b, ts[j]? = some b ∧ b ≠ t) ∧
    t ∈ tickWake ts now ∧
    t ∈ (wakeFirstWaiter ts waiters).1 ∧
    ∃ s2, resumeTask s hdl = .ok s2 ∧
      { tt with state := TaskState.Ready } ∈ s2.tasks := by
  refine ⟨?_, ?_, ?_, ?_⟩
  · intro j hj
    obtain ⟨b, hb, hbel⟩ := pickBestIdx_eligible u ts j hj
    refine ⟨b, hb, fun hbt => ?_⟩
    subst hbt
    simp [eligible, isReady, hsusp] at hbel
  · simp only [tickWake]
    refine List.mem_map.mpr ⟨t, hmem, ?_⟩
    cases hwt : t.wakeTime <;> simp [hsusp, hwt]
  · cases waiters with
    | nil => simpa [wakeFirstWaiter] using hmem
    | cons w ws =>
      simp only [wakeFirstWaiter]
      refine List.mem_map.mpr ⟨t, hmem, ?_⟩
      simp [hsusp]
  · have hnd : ¬ tt.state = TaskState.Deleted := by rw [htt]; simp
    have httid : tt.id = hdl := by simpa using List.find?_some hfind
    have hok : resumeTask s hdl = .ok { s with
        tasks := s.tasks.map fun v =>
          if v.id = hdl ∧ v.state = TaskState.Suspended then
            { v with state := .Ready } else v } := by
      simp [resumeTask, hfind, hnd]
    refine ⟨_, hok, ?_⟩
    refine List.mem_map.mpr ⟨tt, List.mem_of_find?_eq_some hfind, ?_⟩
    simp [httid, htt]

/-- Witness for C7: a single Suspended task is skipped by selection, is
unaffected by a tick wake-up at time 99 and by a queue wake-up, and an
explicit resume of its handle makes it Ready. -/
theorem spec_c7_suspension_sticky_witness :
    ((⟨0, "s", 4, none, .Suspended, none, none⟩ : Task) ∈
      ([⟨0, "s", 4, none, .Suspended, none, none⟩] : List Task)) ∧
    ((∀ j : Nat, pickBestIdx [⟨0, "s", 4, none, .Suspended, none, none⟩] 0 = some j →
      ∃ b, ([⟨0, "s", 4, none, .Suspended, none, none⟩] : List Task)[j]? = some b ∧
        b ≠ ⟨0, "s", 4, none, .Suspended, none, none⟩) ∧
    (⟨0, "s", 4, none, .Suspended, none, none⟩ : Task) ∈
      tickWake [⟨0, "s", 4, none, .Suspended, none, none⟩] 99 ∧
    (⟨0, "s", 4, none, .Suspended, none, none⟩ : Task) ∈
      (wakeFirstWaiter [⟨0, "s", 4, none, .Suspended, none, none⟩] [0]).1 ∧
    ∃ s2, resumeTask ⟨[⟨0, "s", 4, none, .Suspended, none, none⟩], 1, [], [[0]]⟩ 0 =
        .ok s2 ∧
      ({ (⟨0, "s", 4, none, .Suspended, none, none⟩ : Task) with
          state := TaskState.Ready } : Task) ∈ s2.tasks) :=
  ⟨by decide,
   spec_c7_suspension_sticky [⟨0, "s", 4, none, .Suspended, none, none⟩]
     ⟨0, "s", 4, none, .Suspended, none, none⟩ 0 99 [0]
     ⟨[⟨0, "s", 4, none, .Suspended, none, none⟩], 1, [], [[0]]⟩ 0
     ⟨0, "s", 4, none, .Suspended, none, none⟩
     (by decide) (by decide) (by decide) (by decide)⟩

/-- Claim C8: a set-priority call triggers scheduling re-evaluation
synchronously before returning: when the task Running on unit 0 lowers its
own priority below that of the highest-priority Ready peer eligible for the
unit, the operation returns with that peer placed Running on the unit and
the caller returned to the Ready state at its new priority — the caller is
neither blocked nor deleted by the change. -/
theorem spec_c8_set_priority_preempts (s : Sys) (hc newp : Nat)
    (c peer : Task)
    (hone : s.numUnits = 1)
    (hfc : findTask s hc = some c)
    (hcrun : c.state = TaskState.Running)
    (hcu : c.runUnit = some 0)
    (hpeer : peer ∈ s.tasks) (hpready : peer.state = TaskState.Ready)
    (hpaff : affinityOk peer 0 = true)
    (hpid : peer.id ≠ hc)
    (hlow : newp < peer.priority)
    (huniq : ∀ m (hm : m < s.tasks.length),
      isRunningOn (s.tasks.get ⟨m, hm⟩) 0 = true →
      (s.tasks.get ⟨m, hm⟩).id = hc)
    (hstrict : ∀ t2 ∈ s.tasks, t2.state = TaskState.Ready →
      affinityOk t2 0 = true → t2 ≠ peer → t2.priority < peer.priority) :
    ∃ s2, setPriorityTask s hc newp = .ok s2 ∧
      promote peer 0 ∈ s2.tasks ∧
      ∃ c2 ∈ s2.tasks, c2.id = hc ∧ c2.state = TaskState.Ready ∧
        c2.priority = newp := by
  have hnd : ¬ c.state = TaskState.Deleted := by rw [hcrun]; simp
  have hok : setPriorityTask s hc newp = .ok { s with
      tasks := rescheduleAll
        (s.tasks.map fun v =>
          if v.id = hc then { v with priority := newp } else v)
        s.numUnits } := by
    simp [setPriorityTask, hfc, hnd]
  set ts2 := s.tasks.map fun v =>
    if v.id = hc then { v with priority := newp } else v with hts2
  have hpeer2 : peer ∈ ts2 := by
    rw [hts2]
    exact List.mem_map.mpr ⟨peer, hpeer, by simp [hpid]⟩
  have hpelig : eligible peer 0 = true := by
    simp [eligible, isReady, hpready, hpaff]
  obtain ⟨mp, hmp⟩ := List.mem_iff_getElem?.mp hpeer2
  cases hpb : pickBestIdx ts2 0 with
  | none =>
    have := pickBestIdx_none 0 ts2 hpb mp peer hmp
    rw [hpelig] at this
    simp at this
  | some j =>
    obtain ⟨b, hjb, hbel⟩ := pickBestIdx_eligible 0 ts2 j hpb
    have hbmax := pickBestIdx_max 0 ts2 j b hpb hjb mp peer hmp hpelig
    have hjbm := hjb
    rw [hts2, List.getElem?_map] at hjbm
    obtain ⟨a, haj, hfa⟩ := Option.map_eq_some'.mp hjbm
    have hfab : (if a.id = hc then { a with priority := newp } else a) = b := hfa
    obtain ⟨hjlt3, hjeq3⟩ := List.getElem?_eq_some_iff.mp haj
    have hamem : a ∈ s.tasks := hjeq3 ▸ List.getElem_mem hjlt3
    by_cases hbid : a.id = hc
    · have hbp : b.priority = newp := by
        rw [← hfab, if_pos hbid]
      omega
    · have hba : b = a := by rw [← hfab, if_neg hbid]
      have hbprio : b.priority = a.priority := by rw [hba]
      have hbx := hbel
      simp [eligible] at hbx
      have hbready : b.state = TaskState.Ready := (isReady_iff _).mp hbx.1
      have hapeer : a = peer := by
        by_contra hne
        have := hstrict a hamem (hba ▸ hbready) (hba ▸ hbx.2) hne
        omega
      have hbpeer : peer = b := (hba.trans hapeer).symm
      subst hbpeer
      have hcmem : c ∈ s.tasks := List.mem_of_find?_eq_some hfc
      have hcid : c.id = hc := by simpa using List.find?_some hfc
      have hcmem2 : ({ c with priority := newp } : Task) ∈ ts2 := by
        rw [hts2]
        exact List.mem_map.mpr ⟨c, hcmem, by simp [hcid]⟩
      have hcrun2 : isRunningOn ({ c with priority := newp } : Task) 0 = true := by
        simp [isRunningOn, isRunning, hcrun, hcu]
      obtain ⟨mc, hmc⟩ := List.mem_iff_getElem?.mp hcmem2
      cases hri : runIdx ts2 0 with
      | none =>
        have := runIdx_none 0 ts2 hri mc _ hmc
        rw [hcrun2] at this
        simp at this
      | some jc =>
        obtain ⟨r, hjcr, hrr⟩ := runIdx_some 0 ts2 jc hri
        have hjcrm := hjcr
        rw [hts2, List.getElem?_map] at hjcrm
        obtain ⟨a2, hajc, hfa2⟩ := Option.map_eq_some'.mp hjcrm
        have hfa2b : (if a2.id = hc then { a2 with priority := newp } else a2)
            = r := hfa2
        obtain ⟨hjclt2, hjceq2⟩ := List.getElem?_eq_some_iff.mp hajc
        have horig : isRunningOn a2 0 = true := by
          have hrr2 := hrr
          rw [← hfa2b] at hrr2
          by_cases hh : a2.id = hc
          · rw [if_pos hh] at hrr2
            exact hrr2
          · rw [if_neg hh] at hrr2
            exact hrr2
        have hjcid : a2.id = hc := by
          have := huniq jc hjclt2 (by rw [List.get_eq_getElem, hjceq2]; exact horig)
          rw [List.get_eq_getElem, hjceq2] at this
          exact this
        have hrEq : r = { a2 with priority := newp } := by
          rw [← hfa2b, if_pos hjcid]
        have hrid : r.id = hc := by rw [hrEq]; exact hjcid
        have hrprio : r.priority = newp := by rw [hrEq]
        have hrR : isRunning r.state = true := by
          have hx := hrr
          simp [isRunningOn] at hx
          exact hx.1
        have hjne : j ≠ jc := by
          intro hh
          subst hh
          rw [haj] at hajc
          injection hajc with haa
          have hbr : peer = r := by rw [← hfab, ← hfa2b, haa]
          rw [hbr] at hbready
          rw [hbready] at hrR
          simp [isRunning] at hrR
        have hlt : r.priority < peer.priority := by
          rw [hrprio]
          exact hlow
        have hres : reschedule ts2 0 =
            (ts2.set jc (demote r)).set j (promote peer 0) := by
          simp [reschedule, hpb, hjb, hri, hjcr, hlt]
        have h01 : List.range 1 = [0] := rfl
        have hall : rescheduleAll ts2 s.numUnits =
            (ts2.set jc (demote r)).set j (promote peer 0) := by
          rw [hone]
          simp [rescheduleAll, h01, hres]
        rw [hall] at hok
        have hjlt2 : j < ts2.length := by
          have := List.getElem?_eq_some_iff.mp hjb
          exact this.1
        have hjclt : jc < ts2.length := by
          have := List.getElem?_eq_some_iff.mp hjcr
          exact this.1
        refine ⟨_, hok, ?_, ?_⟩
        · have hjlen : j < ((ts2.set jc (demote r)).set j
              (promote peer 0)).length := by
            simpa using hjlt2
          have hjget : ((ts2.set jc (demote r)).set j
              (promote peer 0))[j] = promote peer 0 :=
            List.getElem_set_self hjlen
          have hm := List.getElem_mem hjlen
          rw [hjget] at hm
          exact hm
        · have hjclen : jc < ((ts2.set jc (demote r)).set j
              (promote peer 0)).length := by
            simpa using hjclt
          have hjcget : ((ts2.set jc (demote r)).set j
              (promote peer 0))[jc] = demote r := by
            rw [List.getElem_set_ne hjne]
            exact List.getElem_set_self (by simpa using hjclt)
          have hm2 := List.getElem_mem hjclen
          rw [hjcget] at hm2
          refine ⟨demote r, hm2, ?_, rfl, ?_⟩
          · simpa [demote] using hrid
          · simpa [demote] using hrprio

/-- Witness for C8 mirroring three_tasks_priority.c: tasks of priorities 1,
2 and 3 on one unit; the priority-3 task is Running and lowers itself to 1;
the Ready priority-2 peer is placed Running and the caller ends up Ready at
priority 1. -/
theorem spec_c8_set_priority_preempts_witness :
    ((⟨[⟨0, "low", 1, none, .Ready, none, none⟩,
        ⟨1, "med", 2, none, .Ready, none, none⟩,
        ⟨2, "high", 3, none, .Running, none, some 0⟩], 1, [0, 1], []⟩ :
          Sys).numUnits = 1) ∧
    ((1 : Nat) < (⟨1, "med", 2, none, .Ready, none, none⟩ : Task).priority) ∧
    (∃ s2, setPriorityTask
        ⟨[⟨0, "low", 1, none, .Ready, none, none⟩,
          ⟨1, "med", 2, none, .Ready, none, none⟩,
          ⟨2, "high", 3, none, .Running, none, some 0⟩], 1, [0, 1], []⟩ 2 1 =
        .ok s2 ∧
      promote ⟨1, "med", 2, none, .Ready, none, none⟩ 0 ∈ s2.tasks ∧
      ∃ c2 ∈ s2.tasks, c2.id = 2 ∧ c2.state = TaskState.Ready ∧
        c2.priority = 1) :=
  ⟨by decide, by decide,
   spec_c8_set_priority_preempts
     ⟨[⟨0, "low", 1, none, .Ready, none, none⟩,
       ⟨1, "med", 2, none, .Ready, none, none⟩,
       ⟨2, "high", 3, none, .Running, none, some 0⟩], 1, [0, 1], []⟩ 2 1
     ⟨2, "high", 3, none, .Running, none, some 0⟩
     ⟨1, "med", 2, none, .Ready, none, none⟩
     (by decide) (by decide) (by decide) (by decide) (by decide) (by decide)
     (by decide) (by decide) (by decide) (by decide) (by decide)⟩

end RtosCore
